import Mathlib

/-!
Shallow embedding of the prediction-to-performance evaluation pipeline of the
sp500_tech_analyser repository, together with theorems settling the spec's
claims against it.

Conventions of the embedding:
* pandas/NumPy float values that may be NaN are modelled as `Option ℚ`
  (`none` = NaN); the float arithmetic the code performs is modelled exactly
  over `ℚ`.
* a pandas DataFrame is a list of rows; in-place mutation of a DataFrame
  argument is modelled by returning the argument's final state alongside the
  function's Python return value.
* calendar dates are day numbers (`ℤ`), instants are minutes since an epoch
  (`ℤ`).
-/

namespace SP500

/-- One row of the DataFrame passed to `run_backtest`
(`src/add_analytics/3_backtest_and_optimize.py` and the identical copy in
`src/app.py`).  `score` is the row's value in the column `score_col`
(`df[score_col]`), `ret` its value in `return_col`, and `signal` the value in
the `signal` column that `run_backtest` creates (`none` while the column does
not exist). -/
structure Row where
  score : Option ℚ
  ret : Option ℚ
  signal : Option ℤ
deriving DecidableEq, Repr

abbrev DataFrame := List Row

/-- The three signal assignments of `run_backtest`, per row:
`df['signal'] = 0`, then `df.loc[df[score_col] > threshold, 'signal'] = 1`,
then `df.loc[df[score_col] < -threshold, 'signal'] = -1`.  The last
assignment overwrites the second where both conditions hold (possible only
for a negative threshold).  A NaN score satisfies neither comparison, so the
row keeps signal 0. -/
def setSignal (threshold : ℚ) (r : Row) : Row :=
  let s0 : ℤ := 0
  let s1 : ℤ :=
    match r.score with
    | some v => if threshold < v then 1 else s0
    | none => s0
  let s2 : ℤ :=
    match r.score with
    | some v => if v < -threshold then -1 else s1
    | none => s1
  { r with signal := some s2 }

/-- `df['signal'] * df[return_col]` for one row: the signal column is an
integer column (never NaN once created; the `getD 0` default is never
reached by `run_backtest`, which always creates the column first), so the
product is NaN exactly when the return is NaN. -/
def strategyReturn (r : Row) : Option ℚ :=
  r.ret.map (fun v => ((r.signal.getD 0 : ℤ) : ℚ) * v)

/-- `(1 + strategy_returns).prod()`: pandas `Series.prod` skips NaN entries
(`skipna=True` is the default), and the product of an empty series is 1. -/
def compound (df : DataFrame) : ℚ :=
  df.foldl
    (fun acc r =>
      match strategyReturn r with
      | some sr => acc * (1 + sr)
      | none => acc)
    1

/-- `run_backtest(df, score_col, return_col, threshold)`.  The first
component is the final state of the DataFrame object passed in (the function
mutates it by writing the `signal` column); the second is its Python return
value, the compounded multiplier. -/
def runBacktest (df : DataFrame) (threshold : ℚ) : DataFrame × ℚ :=
  let df1 := df.map (setSignal threshold)
  (df1, compound df1)

/-- Specification-side signal function: the net signal `run_backtest`'s two
conditional assignments leave on a row with the given score, stated as one
decision (`-1` wins on overlap because that assignment runs last). -/
def signalOf (threshold : ℚ) (score : Option ℚ) : ℤ :=
  match score with
  | none => 0
  | some v => if v < -threshold then -1 else if threshold < v then 1 else 0

/-- Specification-side factor list: one factor `1 + signal * return` for
exactly the rows whose realized return is defined, in order. -/
def definedFactors (threshold : ℚ) (df : DataFrame) : List ℚ :=
  df.filterMap (fun r => r.ret.map (fun v => 1 + ((signalOf threshold r.score : ℤ) : ℚ) * v))

lemma strategyReturn_setSignal (threshold : ℚ) (r : Row) :
    strategyReturn (setSignal threshold r) =
      r.ret.map (fun v => ((signalOf threshold r.score : ℤ) : ℚ) * v) := by
  cases hs : r.score with
  | none => simp [strategyReturn, setSignal, signalOf, hs]
  | some v =>
      by_cases h1 : v < -threshold
      · simp [strategyReturn, setSignal, signalOf, hs, h1]
      · by_cases h2 : threshold < v
        · simp [strategyReturn, setSignal, signalOf, hs, h1, h2]
        · simp [strategyReturn, setSignal, signalOf, hs, h1, h2]

lemma compound_map_setSignal (threshold : ℚ) :
    ∀ (df : DataFrame) (a : ℚ),
      (df.map (setSignal threshold)).foldl
          (fun acc r =>
            match strategyReturn r with
            | some sr => acc * (1 + sr)
            | none => acc)
          a
        = a * (definedFactors threshold df).prod := by
  intro df
  induction df with
  | nil => intro a; simp [definedFactors]
  | cons r df ih =>
      intro a
      cases hr : r.ret with
      | none =>
          simp only [List.map_cons, List.foldl_cons, strategyReturn_setSignal, hr,
            Option.map_none']
          rw [ih a]
          simp [definedFactors, hr]
      | some v =>
          simp only [List.map_cons, List.foldl_cons, strategyReturn_setSignal, hr,
            Option.map_some']
          rw [ih]
          simp [definedFactors, hr, mul_assoc]

/-- C2: the compounded multiplier is the product of `1 + signal * return`
over exactly the rows whose realized return is defined; rows with an
undefined (NaN) return drop out of the product whatever their signal is. -/
theorem runBacktest_compounds_only_defined_returns (df : DataFrame) (threshold : ℚ) :
    (runBacktest df threshold).2 = (definedFactors threshold df).prod := by
  have h := compound_map_setSignal threshold df 1
  simpa [runBacktest, compound] using h

/-! ## Threshold optimizer (`optimize_thresholds`)

Python passes DataFrames by reference and `run_backtest` writes a `signal`
column into its argument, so aliasing matters for the optimizer.  We model a
minimal heap of DataFrame objects: references are indices, `df.copy()`
allocates a fresh object holding the same value, and a call that mutates its
argument is a `List.set` at the argument's reference. -/

abbrev Heap := List DataFrame

/-- `run_backtest` applied to the object at `ref`: the object is updated in
place with the `signal` column and the multiplier is returned.  Callers only
pass live references, so the `none` branch is never reached. -/
def runBacktestAt (h : Heap) (ref : ℕ) (threshold : ℚ) : Heap × ℚ :=
  match h[ref]? with
  | none => (h, 1)
  | some df => (h.set ref (runBacktest df threshold).1, (runBacktest df threshold).2)

/-- `thresholds_to_test = range(0, 101, 5)`. -/
def thresholdsToTest : List ℕ := (List.range 21).map (fun i => 5 * i)

/-- One step of scanning the results rows for the maximum `performance`:
a later row replaces the current best only when its value is strictly
greater. -/
def pickBest (b : ℕ × ℚ) (xs : List (ℕ × ℚ)) : ℕ × ℚ :=
  xs.foldl (fun best y => if best.2 < y.2 then y else best) b

/-- `results_df['performance'].idxmax()` followed by `.loc`: pandas `idxmax`
returns the label of the first row attaining the maximal value, so a tie
goes to the earliest row of the results list. -/
def firstMax : List (ℕ × ℚ) → Option (ℕ × ℚ)
  | [] => none
  | x :: xs => some (pickBest x xs)

/-- The trial loop of `optimize_thresholds`: for each threshold,
`df.copy()` allocates a fresh object (appended at index `h.length`) holding
the value of the caller's DataFrame at `ref`, and `run_backtest` runs on
that fresh object.  Returns the final heap together with the `results` list
of `{'threshold': t, 'performance': p}` rows, in grid order. -/
def optimizeLoop (ref : ℕ) : List ℕ → Heap → Heap × List (ℕ × ℚ)
  | [], h => (h, [])
  | t :: ts, h =>
      let h1 := h ++ [(h[ref]?).getD []]
      let step := runBacktestAt h1 h.length (t : ℚ)
      let rest := optimizeLoop ref ts step.1
      (rest.1, (t, step.2) :: rest.2)

/-- The value `optimize_thresholds(df, term)` returns, extended with the
final heap so that the caller-visible state of the input object is part of
the model. -/
structure OptResult where
  heapAfter : Heap
  best_threshold : ℕ
  best_performance : ℚ
  results_df : List (ℕ × ℚ)
deriving DecidableEq, Repr

/-- `optimize_thresholds(df, term)` with the caller's DataFrame at `ref`:
run the grid of trials, then pick the best row via `idxmax`.  `firstMax` is
`none` only on an empty results list; the grid has 21 entries, so the
default is never used. -/
def optimizeThresholds (h : Heap) (ref : ℕ) : OptResult :=
  let loop := optimizeLoop ref thresholdsToTest h
  let best := (firstMax loop.2).getD (0, 1)
  ⟨loop.1, best.1, best.2, loop.2⟩

/-- The results row one trial of the optimizer produces for threshold `t`
when its input object holds the value `df`. -/
def trialRow (df : DataFrame) (t : ℕ) : ℕ × ℚ := (t, (runBacktest df (t : ℚ)).2)

lemma optimizeLoop_spec (ref : ℕ) (df : DataFrame) :
    ∀ (ts : List ℕ) (h : Heap), h[ref]? = some df →
      (optimizeLoop ref ts h).1[ref]? = some df ∧
      (optimizeLoop ref ts h).2 = ts.map (trialRow df) := by
  intro ts
  induction ts with
  | nil => intro h href; exact ⟨href, rfl⟩
  | cons t ts ih =>
      intro h href
      have hlt : ref < h.length := by
        by_contra hge
        rw [List.getElem?_eq_none (Nat.le_of_not_lt hge)] at href
        exact Option.noConfusion href
      have hcopy : (h ++ [(h[ref]?).getD []])[h.length]? = some df := by
        rw [href]
        exact List.getElem?_concat_length h df
      have hkeep : ∀ (d : DataFrame),
          ((h ++ [(h[ref]?).getD []]).set h.length d)[ref]? = some df := by
        intro d
        rw [List.getElem?_set_ne (Nat.ne_of_gt hlt), List.getElem?_append_left hlt]
        exact href
      have hstep : (runBacktestAt (h ++ [(h[ref]?).getD []]) h.length (t : ℚ))
          = (((h ++ [(h[ref]?).getD []]).set h.length (runBacktest df (t : ℚ)).1),
             (runBacktest df (t : ℚ)).2) := by
        rw [runBacktestAt, hcopy]
      have ihapp := ih (((h ++ [(h[ref]?).getD []]).set h.length (runBacktest df (t : ℚ)).1))
        (hkeep _)
      constructor
      · show (optimizeLoop ref (t :: ts) h).1[ref]? = some df
        rw [optimizeLoop, hstep]
        exact ihapp.1
      · show (optimizeLoop ref (t :: ts) h).2 = _
        rw [optimizeLoop, hstep]
        simpa [trialRow] using ihapp.2

/-- C9: `optimize_thresholds` leaves the caller's DataFrame object exactly
as it was, and every threshold trial is computed against an independent copy
of that original data — the curve entry for each grid threshold is
`run_backtest` evaluated on the pristine input value. -/
theorem optimizeThresholds_preserves_input (h : Heap) (ref : ℕ) (df : DataFrame)
    (href : h[ref]? = some df) :
    (optimizeThresholds h ref).heapAfter[ref]? = some df ∧
    (optimizeThresholds h ref).results_df = thresholdsToTest.map (trialRow df) := by
  have hspec := optimizeLoop_spec ref df thresholdsToTest h href
  simp only [optimizeThresholds]
  exact ⟨hspec.1, hspec.2⟩

/-- C9 witness: a concrete one-object heap; the caller's DataFrame at
reference 0 is unchanged by the optimizer. -/
theorem optimizeThresholds_preserves_input_witness :
    (optimizeThresholds [[⟨some 60, some (1/20), none⟩]] 0).heapAfter[0]?
      = some [⟨some 60, some (1/20), none⟩] := by
  have hpres := optimizeThresholds_preserves_input [[⟨some 60, some (1/20), none⟩]] 0
    [⟨some 60, some (1/20), none⟩] (by rfl)
  exact hpres.1

lemma pickBest_spec (xs : List (ℕ × ℚ)) :
    ∀ (b : ℕ × ℚ),
      (pickBest b xs = b ∨ (pickBest b xs ∈ xs ∧ b.2 < (pickBest b xs).2)) ∧
      b.2 ≤ (pickBest b xs).2 ∧ ∀ x ∈ xs, x.2 ≤ (pickBest b xs).2 := by
  induction xs with
  | nil => intro b; simp [pickBest]
  | cons x xs ih =>
      intro b
      by_cases hbx : b.2 < x.2
      · have hx := ih x
        have hpb : pickBest b (x :: xs) = pickBest x xs := by simp [pickBest, hbx]
        rw [hpb]
        refine ⟨?_, ?_, ?_⟩
        · rcases hx.1 with hcase | hcase
          · exact Or.inr ⟨by rw [hcase]; exact List.mem_cons_self x xs, by rw [hcase]; exact hbx⟩
          · exact Or.inr ⟨List.mem_cons_of_mem x hcase.1, lt_trans hbx hcase.2⟩
        · exact le_of_lt (lt_of_lt_of_le hbx hx.2.1)
        · intro z hz
          rcases List.mem_cons.mp hz with hzc | hzc
          · rw [hzc]; exact hx.2.1
          · exact hx.2.2 z hzc
      · have hb := ih b
        have hpb : pickBest b (x :: xs) = pickBest b xs := by simp [pickBest, hbx]
        rw [hpb]
        refine ⟨?_, hb.2.1, ?_⟩
        · rcases hb.1 with hcase | hcase
          · exact Or.inl hcase
          · exact Or.inr ⟨List.mem_cons_of_mem x hcase.1, hcase.2⟩
        · intro z hz
          rcases List.mem_cons.mp hz with hzc | hzc
          · rw [hzc]; exact le_trans (le_of_not_lt hbx) hb.2.1
          · exact hb.2.2 z hzc

lemma pickBest_first_tie (xs : List (ℕ × ℚ)) :
    ∀ (b : ℕ × ℚ), (∀ x ∈ xs, b.1 < x.1) →
      List.Pairwise (fun p q : ℕ × ℚ => p.1 < q.1) xs →
      ∀ p, (p = b ∨ p ∈ xs) → p.2 = (pickBest b xs).2 → (pickBest b xs).1 ≤ p.1 := by
  induction xs with
  | nil =>
      intro b _ _ p hp _
      rcases hp with rfl | hmem
      · simp [pickBest]
      · exact absurd hmem (List.not_mem_nil p)
  | cons x xs ih =>
      intro b hlt hpw p hp hval
      rcases List.pairwise_cons.mp hpw with ⟨hxlt, hpw2⟩
      by_cases hbx : b.2 < x.2
      · have hpb : pickBest b (x :: xs) = pickBest x xs := by simp [pickBest, hbx]
        rw [hpb] at hval ⊢
        rcases hp with rfl | hmem
        · exfalso
          have hxle := (pickBest_spec xs x).2.1
          rw [← hval] at hxle
          exact absurd (lt_of_lt_of_le hbx hxle) (lt_irrefl p.2)
        · exact ih x hxlt hpw2 p (List.mem_cons.mp hmem) hval
      · have hpb : pickBest b (x :: xs) = pickBest b xs := by simp [pickBest, hbx]
        rw [hpb] at hval ⊢
        rcases hp with rfl | hmem
        · exact ih p (fun z hz => lt_trans (hlt x (List.mem_cons_self x xs)) (hxlt z hz))
            hpw2 p (Or.inl rfl) hval
        · rcases List.mem_cons.mp hmem with hpx | hpx
          · have hspec := pickBest_spec xs b
            have hble : b.2 ≤ (pickBest b xs).2 := hspec.2.1
            have hxb : p.2 ≤ b.2 := by rw [hpx]; exact le_of_not_lt hbx
            have hbeq : b.2 = (pickBest b xs).2 := le_antisymm hble (by rw [← hval]; exact hxb)
            rcases hspec.1 with hcase | hcase
            · rw [hcase, hpx]
              exact le_of_lt (hlt x (List.mem_cons_self x xs))
            · exact absurd hcase.2 (by rw [hbeq]; exact lt_irrefl _)
          · exact ih b (fun z hz => hlt z (List.mem_cons_of_mem x hz)) hpw2 p
              (Or.inr hpx) hval

/-- C3: the optimizer's best row is a row of the returned curve, its
performance is the curve's maximum, and among all grid thresholds attaining
that exact maximal performance the returned `best_threshold` is the
smallest (pandas `idxmax` takes the first maximal row and the grid is
ascending). -/
theorem optimizeThresholds_tie_break (h : Heap) (ref : ℕ) (df : DataFrame)
    (href : h[ref]? = some df) :
    ((optimizeThresholds h ref).best_threshold, (optimizeThresholds h ref).best_performance)
        ∈ (optimizeThresholds h ref).results_df ∧
    (∀ p ∈ (optimizeThresholds h ref).results_df,
        p.2 ≤ (optimizeThresholds h ref).best_performance) ∧
    (∀ p ∈ (optimizeThresholds h ref).results_df,
        p.2 = (optimizeThresholds h ref).best_performance →
          (optimizeThresholds h ref).best_threshold ≤ p.1) := by
  have hres := (optimizeLoop_spec ref df thresholdsToTest h href).2
  have hpw : List.Pairwise (fun p q : ℕ × ℚ => p.1 < q.1)
      (thresholdsToTest.map (trialRow df)) := by
    rw [List.pairwise_map]
    have hgrid : List.Pairwise (fun a b : ℕ => a < b) thresholdsToTest := by decide
    exact hgrid.imp (fun hab => hab)
  obtain ⟨c, cs, hM⟩ : ∃ c cs, thresholdsToTest.map (trialRow df) = c :: cs := by
    cases hcase : thresholdsToTest.map (trialRow df) with
    | nil =>
        exfalso
        have : thresholdsToTest.map (trialRow df) ≠ [] := by
          simp [thresholdsToTest]
        exact this hcase
    | cons c cs => exact ⟨c, cs, rfl⟩
  simp only [optimizeThresholds]
  rw [hres, hM]
  rw [hM] at hpw
  rcases List.pairwise_cons.mp hpw with ⟨hclt, hpw2⟩
  simp only [firstMax, Option.getD_some]
  have hspec := pickBest_spec cs c
  refine ⟨?_, ?_, ?_⟩
  · rcases hspec.1 with hcase | hcase
    · rw [Prod.mk.eta, hcase]; exact List.mem_cons_self c cs
    · rw [Prod.mk.eta]; exact List.mem_cons_of_mem c hcase.1
  · intro p hp
    rcases List.mem_cons.mp hp with hpc | hpc
    · rw [hpc]; exact hspec.2.1
    · exact hspec.2.2 p hpc
  · intro p hp hval
    exact pickBest_first_tie cs c hclt hpw2 p
      (by rcases List.mem_cons.mp hp with hpc | hpc
          · exact Or.inl hpc
          · exact Or.inr hpc) hval

/-- C3 witness: on a concrete one-row DataFrame the best row returned by the
optimizer is a row of its own curve. -/
theorem optimizeThresholds_tie_break_witness :
    ((optimizeThresholds [[⟨some 10, some (1/50), none⟩]] 0).best_threshold,
     (optimizeThresholds [[⟨some 10, some (1/50), none⟩]] 0).best_performance)
      ∈ (optimizeThresholds [[⟨some 10, some (1/50), none⟩]] 0).results_df := by
  have htie := optimizeThresholds_tie_break [[⟨some 10, some (1/50), none⟩]] 0
    [⟨some 10, some (1/50), none⟩] (by rfl)
  exact htie.1

/-- C10: with no rows at all, or with every row's realized return undefined
(NaN), `run_backtest` returns a compounded performance of exactly 1 — the
empty pandas product. -/
theorem runBacktest_no_defined_returns_is_one (df : DataFrame) (threshold : ℚ)
    (hall : ∀ r ∈ df, r.ret = none) :
    (runBacktest df threshold).2 = 1 := by
  have hnil : definedFactors threshold df = [] := by
    rw [definedFactors, List.filterMap_eq_nil_iff]
    intro r hr
    rw [hall r hr]
    rfl
  have h := compound_map_setSignal threshold df 1
  rw [hnil] at h
  simpa [runBacktest, compound] using h

/-- C10 witness: a two-row DataFrame whose returns are all NaN, and the
empty DataFrame, both compound to exactly 1. -/
theorem runBacktest_no_defined_returns_is_one_witness :
    (runBacktest [⟨some 60, none, none⟩, ⟨none, none, some 0⟩] 50).2 = 1 ∧
    (runBacktest [] 50).2 = 1 := by
  constructor
  · exact runBacktest_no_defined_returns_is_one _ 50 (by decide)
  · exact runBacktest_no_defined_returns_is_one [] 50 (by intro r hr; cases hr)

/-- C5 counterexample: `run_backtest` raises nothing for a negative
threshold; on a one-row DataFrame with score 0 and return 1/10 it happily
returns the multiplier 9/10 (for threshold −1 the score 0 satisfies both
`score > threshold` and `score < -threshold`, and the short assignment,
which runs last, wins). -/
theorem runBacktest_negative_threshold_counterexample :
    (runBacktest [⟨some 0, some (1/10), none⟩] (-1)).2 = 9/10 := by
  norm_num [runBacktest, compound, setSignal, strategyReturn]

/-- C5 amended: `run_backtest` performs no threshold validation.  For a
negative threshold it still computes the compounded multiplier over the
defined-return rows, and every score in the overlapping band
`threshold < v < -threshold` ends with the short signal `-1`, the later of
the two conditional assignments. -/
theorem runBacktest_negative_threshold_computes (df : DataFrame) (threshold : ℚ)
    (_hneg : threshold < 0) :
    (runBacktest df threshold).2 = (definedFactors threshold df).prod ∧
    ∀ r ∈ df, ∀ v, r.score = some v → threshold < v → v < -threshold →
      (setSignal threshold r).signal = some (-1) := by
  constructor
  · have h := compound_map_setSignal threshold df 1
    simpa [runBacktest, compound] using h
  · intro r hr v hv h1 h2
    simp [setSignal, hv, h2]

/-- C5 amended witness: threshold −1 on the one-row DataFrame with score 0;
the multiplier is computed and the overlap row gets signal −1. -/
theorem runBacktest_negative_threshold_computes_witness :
    (-1 : ℚ) < 0 ∧
    (runBacktest [⟨some 0, some (1/10), none⟩] (-1)).2
      = (definedFactors (-1) [⟨some 0, some (1/10), none⟩]).prod ∧
    (setSignal (-1) ⟨some 0, some (1/10), none⟩).signal = some (-1) := by
  have hc := runBacktest_negative_threshold_computes [⟨some 0, some (1/10), none⟩]
    (-1) (by norm_num)
  exact ⟨by norm_num, hc.1,
    hc.2 _ (List.mem_cons_self _ _) 0 rfl (by norm_num) (by norm_num)⟩

/-! ## Horizon aligner (`compute_returns`, src/backtesting.py)

Timestamps are minutes since an epoch (`ℤ`); a calendar date is its day
number.  A price row is a `(timestamp, close)` pair of the price frame;
horizon offsets (`timedelta(weeks=k)`) are whole numbers of days. -/

/-- `.normalize()`: drop the time of day, keeping the calendar day. -/
def dateOf (t : ℤ) : ℤ := t.ediv 1440

/-- `price_by_date = price_df.groupby('date')['close'].last()` followed by
`Series.map`: the close of the *last* price row falling on exactly the date
`d`, and NaN (`none`) when no price row has that exact date — `map` does no
as-of lookup. -/
def priceByDate (price : List (ℤ × ℚ)) (d : ℤ) : Option ℚ :=
  ((price.filter (fun p => dateOf p.1 = d)).map Prod.snd).getLast?

/-- One record/horizon cell of `compute_returns`: `base` is the price at
the record's base date (`preds['date'] = preds.index.normalize()`),
`future` the price at base date + delta, and the return is filled only
where `base.notna() & future.notna()` — it stays NaN otherwise. -/
def computeReturn (price : List (ℤ × ℚ)) (ts : ℤ) (delta : ℤ) : Option ℚ :=
  match priceByDate price (dateOf ts), priceByDate price (dateOf ts + delta) with
  | some b, some f => some ((f - b) / b)
  | _, _ => none

/-- `compute_returns(preds, price, horizons)`: the added `R_term` columns,
one list of per-record realized returns for each horizon. -/
def computeReturns (predTs : List ℤ) (price : List (ℤ × ℚ))
    (horizons : List (String × ℤ)) : List (String × List (Option ℚ)) :=
  horizons.map (fun hz => (hz.1, predTs.map (fun ts => computeReturn price ts hz.2)))

/-- The lookup rule in the words of the spec, for comparison with
`priceByDate`: the most recent available price on or before `d` — the close
of the last row whose date is ≤ `d`, for a date-sorted series. -/
def asofPrice (price : List (ℤ × ℚ)) (d : ℤ) : Option ℚ :=
  ((price.filter (fun p => dateOf p.1 ≤ d)).map Prod.snd).getLast?

/-- C1 counterexample: prices exist on day 0 (close 100) and day 2
(close 110); a prediction at noon of day 1 with a one-day horizon lies
inside the series span and has most-recent-prior prices for both dates
(100 and 110), yet `compute_returns` leaves its return undefined, because
day 1 itself has no price row — the code looks up exact dates, not the most
recent price on or before the date. -/
theorem computeReturn_exact_counterexample :
    computeReturn [(0, 100), (2880, 110)] 2160 1 = none ∧
    asofPrice [(0, 100), (2880, 110)] (dateOf 2160) = some 100 ∧
    asofPrice [(0, 100), (2880, 110)] (dateOf 2160 + 1) = some 110 ∧
    dateOf (0 : ℤ) ≤ dateOf 2160 ∧ dateOf 2160 + 1 ≤ dateOf 2880 := by
  decide

/-- C1 amended: the aligner resolves the base price as the close recorded
for exactly the base date (last row of that date) and the future price as
the close recorded for exactly base date + offset; the realized return is
`(future − base)/base` when both exact dates carry a price and is undefined
exactly when either date has no price row — even when earlier prices
exist. -/
theorem computeReturn_exact_date_lookup (price : List (ℤ × ℚ)) (ts delta : ℤ) :
    (computeReturn price ts delta = none ↔
      priceByDate price (dateOf ts) = none ∨
        priceByDate price (dateOf ts + delta) = none) ∧
    (∀ b f, priceByDate price (dateOf ts) = some b →
        priceByDate price (dateOf ts + delta) = some f →
        computeReturn price ts delta = some ((f - b) / b)) ∧
    (∀ d : ℤ, priceByDate price d = none ↔ ∀ p ∈ price, dateOf p.1 ≠ d) := by
  refine ⟨?_, ?_, ?_⟩
  · cases hb : priceByDate price (dateOf ts) with
    | none => simp [computeReturn, hb]
    | some b =>
        cases hf : priceByDate price (dateOf ts + delta) with
        | none => simp [computeReturn, hb, hf]
        | some f => simp [computeReturn, hb, hf]
  · intro b f hb hf
    simp [computeReturn, hb, hf]
  · intro d
    rw [priceByDate, List.getLast?_eq_none_iff, List.map_eq_nil_iff,
      List.filter_eq_nil_iff]
    simp

/-- C1 amended witness: a series with prices at day 0 and day 1; the return
of a day-0 record over a one-day horizon is defined and equals
`(105 − 100)/100`. -/
theorem computeReturn_exact_date_lookup_witness :
    computeReturn [(0, 100), (1440, 105)] 0 1 = some ((105 - 100) / 100) := by
  have hx := computeReturn_exact_date_lookup [(0, 100), (1440, 105)] 0 1
  exact hx.2.1 100 105 (by decide) (by decide)

/-! ## Evaluation engine (`evaluate`, src/backtesting.py) -/

/-- A field value of a results row appended by `evaluate`.  The `term`
field is a string; `pearson_r` is carried as the exact pair
(scaled covariance, product of scaled variances) that determines pandas'
`corr` value `cov/√(varₓ·var_y)` — the square root leaves `ℚ`, so the
embedding keeps the rational data fixing the correlation (equal pairs give
equal correlations); the remaining metrics are exact rational
arithmetic. -/
inductive Val where
  | str (s : String)
  | corrOf (cov varProd : ℚ)
  | num (q : ℚ)
deriving DecidableEq, Repr

/-- The two columns of `preds` that `evaluate` reads for one term:
`preds[f'{term}_score']` and `preds[f'R_{term}']`, as equal-length,
index-aligned lists. -/
structure TermData where
  score : List (Option ℚ)
  ret : List (Option ℚ)
deriving DecidableEq, Repr

/-- `mask = score.notna() & ret.notna()` followed by `score[mask]` /
`ret[mask]`: the (score, return) pairs where both entries are defined, in
row order. -/
def validPairs (td : TermData) : List (ℚ × ℚ) :=
  (td.score.zip td.ret).filterMap
    (fun p =>
      match p with
      | (some s, some r) => some (s, r)
      | _ => none)

/-- The exact rational data of `score_v.corr(ret_v)` (Pearson): with `n`
pairs, corr = `(nΣxy − ΣxΣy) / √((nΣx² − (Σx)²)(nΣy² − (Σy)²))`; we carry
the numerator and the product under the root. -/
def pearsonData (ps : List (ℚ × ℚ)) : ℚ × ℚ :=
  let n : ℚ := ps.length
  let sx := (ps.map Prod.fst).sum
  let sy := (ps.map Prod.snd).sum
  let sxx := (ps.map (fun p => p.1 * p.1)).sum
  let syy := (ps.map (fun p => p.2 * p.2)).sum
  let sxy := (ps.map (fun p => p.1 * p.2)).sum
  (n * sxy - sx * sy, (n * sxx - sx * sx) * (n * syy - sy * sy))

/-- `true_label(x)`: Up when the return is above `ret_up`, Down when below
`-ret_up`, else Flat. -/
def trueLabel (ret_up : ℚ) (x : ℚ) : String :=
  if x > ret_up then "Up" else if x < -ret_up then "Down" else "Flat"

/-- `pd.cut(score_v, bins=[-100, -score_flat, score_flat, 100],
labels=['Down', 'Flat', 'Up'])`: right-closed bins; a score outside
`(-100, 100]` falls in no bin and gets the null label (NaN). -/
def predLabel (score_flat : ℚ) (s : ℚ) : Option String :=
  if -100 < s ∧ s ≤ -score_flat then some "Down"
  else if -score_flat < s ∧ s ≤ score_flat then some "Flat"
  else if score_flat < s ∧ s ≤ 100 then some "Up"
  else none

/-- `classification_report(..., output_dict=True, zero_division=0)`,
restricted to the fields `evaluate` reads: multiclass accuracy over the
(true, predicted) label pairs. -/
def accuracyOf (ls : List (String × Option String)) : ℚ :=
  ((ls.countP (fun l => decide (l.2 = some l.1)) : ℕ) : ℚ) / ((ls.length : ℕ) : ℚ)

/-- `report['Up']['precision']` with `zero_division=0`. -/
def precisionUp (ls : List (String × Option String)) : ℚ :=
  let tp := ls.countP (fun l => decide (l.1 = "Up" ∧ l.2 = some "Up"))
  let predUp := ls.countP (fun l => decide (l.2 = some "Up"))
  if predUp = 0 then 0 else (tp : ℚ) / (predUp : ℚ)

/-- `report['Up']['recall']` with `zero_division=0`. -/
def recallUp (ls : List (String × Option String)) : ℚ :=
  let tp := ls.countP (fun l => decide (l.1 = "Up" ∧ l.2 = some "Up"))
  let trueUp := ls.countP (fun l => decide (l.1 = "Up"))
  if trueUp = 0 then 0 else (tp : ℚ) / (trueUp : ℚ)

/-- `report['Up']['f1-score']`: harmonic mean of precision and recall, 0
when both are 0 (`zero_division=0`). -/
def f1Up (ls : List (String × Option String)) : ℚ :=
  let p := precisionUp ls
  let r := recallUp ls
  if p + r = 0 then 0 else 2 * p * r / (p + r)

/-- The body of `evaluate`'s loop for one term: `none` models the
`continue` taken when `mask.sum() < 2` (the warning it emits is a
diagnostic side effect, not modelled); otherwise the results row appended
for the term — the dict literal of the source, keys in order. -/
def evalTermRow (preds : String → TermData) (ret_up score_flat : ℚ) (term : String) :
    Option (List (String × Val)) :=
  let pairs := validPairs (preds term)
  if pairs.length < 2 then none
  else
    let ls := pairs.map (fun p => (trueLabel ret_up p.2, predLabel score_flat p.1))
    some [("term", Val.str term),
          ("pearson_r", Val.corrOf (pearsonData pairs).1 (pearsonData pairs).2),
          ("accuracy", Val.num (accuracyOf ls)),
          ("precision_up", Val.num (precisionUp ls)),
          ("recall_up", Val.num (recallUp ls)),
          ("f1_up", Val.num (f1Up ls))]

/-- `evaluate(preds, score_terms, thresholds)`: the rows of the returned
report (before `set_index('term')`), in term order, with skipped terms
omitted. -/
def evaluate (preds : String → TermData) (ret_up score_flat : ℚ)
    (score_terms : List String) : List (List (String × Val)) :=
  score_terms.filterMap (evalTermRow preds ret_up score_flat)

/-- A concrete prediction table for witnesses: term `short_1w` has two
valid (score, return) pairs; every other term has exactly one. -/
def exPreds : String → TermData :=
  fun t =>
    if t = "short_1w" then ⟨[some 5, some (-5)], [some (1/50), some (-1/100)]⟩
    else ⟨[some 7], [some (1/50)]⟩

lemma filterMap_skip_eq {α β : Type} [DecidableEq α] (f : α → Option β) (x : α)
    (hx : f x = none) :
    ∀ l : List α, l.filterMap f = (l.filter (fun t => t ≠ x)).filterMap f := by
  intro l
  induction l with
  | nil => rfl
  | cons a l ih =>
      by_cases ha : a = x
      · subst ha
        rw [List.filterMap_cons, hx, List.filter_cons]
        rw [if_neg (by simp)]
        exact ih
      · rw [List.filterMap_cons, List.filter_cons]
        have hne : (decide (a ≠ x)) = true := by simp [ha]
        rw [hne, if_pos rfl, List.filterMap_cons]
        cases hfa : f a with
        | none => exact ih
        | some b => rw [ih]

lemma evalTermRow_of_insufficient (preds : String → TermData)
    (ret_up score_flat : ℚ) (term : String)
    (hfew : (validPairs (preds term)).length < 2) :
    evalTermRow preds ret_up score_flat term = none := by
  simp [evalTermRow, hfew]

lemma evalTermRow_mem_row (preds : String → TermData) (ret_up score_flat : ℚ)
    (t : String) (row : List (String × Val))
    (hsome : evalTermRow preds ret_up score_flat t = some row) :
    ¬ (validPairs (preds t)).length < 2 ∧
    row.map Prod.fst
      = ["term", "pearson_r", "accuracy", "precision_up", "recall_up", "f1_up"] ∧
    row.head? = some ("term", Val.str t) := by
  by_cases hlen : (validPairs (preds t)).length < 2
  · rw [evalTermRow_of_insufficient preds ret_up score_flat t hlen] at hsome
    exact Option.noConfusion hsome
  · simp only [evalTermRow, if_neg hlen, Option.some.injEq] at hsome
    subst hsome
    exact ⟨hlen, rfl, rfl⟩

/-- C7: a horizon with fewer than 2 valid (score, return) pairs is skipped —
no metrics row is computed for it (the code emits a warning, a side effect
outside the model) — and the report is exactly the report of the same input
with that horizon removed from the term list; no row of the report names the
skipped term. -/
theorem evaluate_skips_insufficient_horizon (preds : String → TermData)
    (ret_up score_flat : ℚ) (terms : List String) (term : String)
    (hfew : (validPairs (preds term)).length < 2) :
    evaluate preds ret_up score_flat terms
      = evaluate preds ret_up score_flat (terms.filter (fun t => t ≠ term)) ∧
    ∀ row ∈ evaluate preds ret_up score_flat terms, ("term", Val.str term) ∉ row := by
  have hnone := evalTermRow_of_insufficient preds ret_up score_flat term hfew
  constructor
  · exact filterMap_skip_eq _ term hnone terms
  · intro row hrow hmem
    obtain ⟨t, _ht, hsome⟩ := List.mem_filterMap.mp hrow
    have hr := evalTermRow_mem_row preds ret_up score_flat t row hsome
    have hlen := hr.1
    by_cases hlen2 : (validPairs (preds t)).length < 2
    · exact hlen hlen2
    · simp only [evalTermRow, if_neg hlen2, Option.some.injEq] at hsome
      subst hsome
      simp only [List.mem_cons, List.not_mem_nil, or_false, Prod.mk.injEq] at hmem
      rcases hmem with h | h | h | h | h | h
      · have : t = term := by
          have := h.2
          exact (Val.str.injEq _ _ ▸ this.symm : t = term)
        subst this
        exact hlen hfew
      all_goals simp_all

/-- C7 witness: with the concrete table, `medium_13w` has one valid pair
and its row is absent: the report over both terms equals the report with
`medium_13w` filtered out of the term list. -/
theorem evaluate_skips_insufficient_horizon_witness :
    evaluate exPreds 0 1 ["short_1w", "medium_13w"]
      = evaluate exPreds 0 1
          (["short_1w", "medium_13w"].filter (fun t => t ≠ "medium_13w")) :=
  (evaluate_skips_insufficient_horizon exPreds 0 1 ["short_1w", "medium_13w"]
    "medium_13w" (by decide)).1

/-- C4 counterexample: a horizon with 2 valid pairs produces a report row
whose fields are exactly `term, pearson_r, accuracy, precision_up,
recall_up, f1_up` — no `mse` and no `mae` field exists (the sklearn error
metrics are imported by the source file but never called). -/
theorem evaluate_no_error_metrics_counterexample :
    2 ≤ (validPairs (exPreds "short_1w")).length ∧
    (evaluate exPreds 0 1 ["short_1w"]).map (fun row => row.map Prod.fst)
      = [["term", "pearson_r", "accuracy", "precision_up", "recall_up", "f1_up"]] ∧
    "mse" ∉ ["term", "pearson_r", "accuracy", "precision_up", "recall_up", "f1_up"] ∧
    "mae" ∉ ["term", "pearson_r", "accuracy", "precision_up", "recall_up", "f1_up"] := by
  decide

/-- C4 amended: every report row (each horizon with at least 2 valid pairs
gets one) carries exactly the fields `term, pearson_r, accuracy,
precision_up, recall_up, f1_up`: the Pearson correlation and the
classification metrics, but no mean-squared-error and no
mean-absolute-error field. -/
theorem evaluate_rows_have_fixed_fields (preds : String → TermData)
    (ret_up score_flat : ℚ) (terms : List String) :
    ∀ row ∈ evaluate preds ret_up score_flat terms,
      row.map Prod.fst
          = ["term", "pearson_r", "accuracy", "precision_up", "recall_up", "f1_up"] ∧
      "mse" ∉ row.map Prod.fst ∧ "mae" ∉ row.map Prod.fst := by
  intro row hrow
  obtain ⟨t, _ht, hsome⟩ := List.mem_filterMap.mp hrow
  have hr := evalTermRow_mem_row preds ret_up score_flat t row hsome
  refine ⟨hr.2.1, ?_, ?_⟩
  · rw [hr.2.1]; decide
  · rw [hr.2.1]; decide

/-- C4 amended witness: the concrete report's single row has exactly the
six fields. -/
theorem evaluate_rows_have_fixed_fields_witness :
    ((evaluate exPreds 0 1 ["short_1w"]).getD 0 []).map Prod.fst
      = ["term", "pearson_r", "accuracy", "precision_up", "recall_up", "f1_up"] := by
  obtain ⟨row, hev⟩ : ∃ row, evaluate exPreds 0 1 ["short_1w"] = [row] := ⟨_, rfl⟩
  have hkeys := (evaluate_rows_have_fixed_fields exPreds 0 1 ["short_1w"] row
    (by rw [hev]; exact List.mem_cons_self _ _)).1
  rw [hev]
  exact hkeys

/-- C6 counterexample: with `score_flat = 1`, the score 150 is strictly
greater than `score_flat` yet gets no label at all (and the score −101,
strictly less than `-score_flat`, gets none either): `pd.cut`'s outermost
bin edges ±100 bound the labels outward, contradicting "unbounded
outward". -/
theorem predLabel_outward_bound_counterexample :
    (1 : ℚ) < 150 ∧ predLabel 1 150 = none ∧
    (-101 : ℚ) < -1 ∧ predLabel 1 (-101) = none := by
  decide

/-- C6 amended: for bin edges that `pd.cut` accepts (`0 < score_flat <
100`), the score discretization labels Up exactly the scores in
`(score_flat, 100]`, Down exactly those in `(-100, -score_flat]`, Flat
exactly those in `(-score_flat, score_flat]`, and leaves every score
outside `(-100, 100]` unlabelled. -/
theorem predLabel_bins (score_flat s : ℚ) (h0 : 0 < score_flat)
    (h100 : score_flat < 100) :
    (predLabel score_flat s = some "Up" ↔ score_flat < s ∧ s ≤ 100) ∧
    (predLabel score_flat s = some "Down" ↔ -100 < s ∧ s ≤ -score_flat) ∧
    (predLabel score_flat s = some "Flat" ↔ -score_flat < s ∧ s ≤ score_flat) ∧
    (predLabel score_flat s = none ↔ s ≤ -100 ∨ 100 < s) := by
  rw [predLabel]
  split_ifs with h1 h2 h3
  · obtain ⟨ha, hb⟩ := h1
    refine ⟨iff_of_false (by decide) (fun h => by linarith [h.1]),
      iff_of_true rfl ⟨ha, hb⟩,
      iff_of_false (by decide) (fun h => by linarith [h.1]),
      iff_of_false (by decide) ?_⟩
    rintro (h | h)
    · linarith
    · linarith
  · obtain ⟨ha, hb⟩ := h2
    refine ⟨iff_of_false (by decide) (fun h => by linarith [h.1]),
      iff_of_false (by decide) (fun h => by linarith [h.2]),
      iff_of_true rfl ⟨ha, hb⟩,
      iff_of_false (by decide) ?_⟩
    rintro (h | h)
    · linarith
    · linarith
  · obtain ⟨ha, hb⟩ := h3
    refine ⟨iff_of_true rfl ⟨ha, hb⟩,
      iff_of_false (by decide) (fun h => by linarith [h.2]),
      iff_of_false (by decide) (fun h => by linarith [h.2]),
      iff_of_false (by decide) ?_⟩
    rintro (h | h)
    · linarith
    · linarith
  · refine ⟨iff_of_false (by decide) (fun h => h3 h),
      iff_of_false (by decide) (fun h => h1 h),
      iff_of_false (by decide) (fun h => h2 h),
      iff_of_true rfl ?_⟩
    by_cases hs : s ≤ -100
    · exact Or.inl hs
    · right
      have hns : -100 < s := not_le.mp hs
      have hb1 : -score_flat < s := by
        rcases not_and_or.mp h1 with hc | hc
        · exact absurd hns hc
        · exact not_le.mp hc
      have hb2 : score_flat < s := by
        rcases not_and_or.mp h2 with hc | hc
        · exact absurd hb1 hc
        · exact not_le.mp hc
      rcases not_and_or.mp h3 with hc | hc
      · exact absurd hb2 hc
      · exact not_le.mp hc

/-- C6 amended witness: `score_flat = 1`, score 50: labelled Up and the bin
characterization holds. -/
theorem predLabel_bins_witness :
    (0 : ℚ) < 1 ∧ (1 : ℚ) < 100 ∧
    (predLabel 1 50 = some "Up" ↔ (1 : ℚ) < 50 ∧ (50 : ℚ) ≤ 100) :=
  ⟨by norm_num, by norm_num, (predLabel_bins 1 50 (by norm_num) (by norm_num)).1⟩

/-! ## Timestamp normalization (`load_predictions` in src/backtesting.py and
the module-level loading loop of src/plot_results.py)

An instant is minutes since an epoch, counted in UTC; a naive timestamp is
a wall clock in minutes.  A timezone is modelled by its UTC-offset function
(minutes); Asia/Jerusalem's offset is 120 outside daylight saving and 180
inside, always a whole number of hours. -/

/-- An aware pandas timestamp: the instant it denotes together with the UTC
offset of the timezone it is displayed in. -/
structure AwareTs where
  instant : ℤ
  offset : ℤ
deriving DecidableEq, Repr

/-- `pd.to_datetime(s, utc=True)` on a naive input: the wall clock is read
as UTC (src/backtesting.py line 22). -/
def parseNaiveUtc (w : ℤ) : AwareTs := ⟨w, 0⟩

/-- `tz_convert`: same instant, displayed in the target timezone. -/
def tzConvert (tz : ℤ → ℤ) (t : AwareTs) : AwareTs := ⟨t.instant, tz t.instant⟩

/-- `tz_localize(tz)` on a naive wall clock: the wall clock is interpreted
as local time of `tz` (src/plot_results.py line 17; the offset is indexed
by the wall clock — DST-ambiguous hours do not occur in the
counterexample below). -/
def tzLocalize (tz : ℤ → ℤ) (w : ℤ) : AwareTs := ⟨w - tz w, tz w⟩

/-- `.round('h')` on a naive value: nearest hour, ties to the even hour
(pandas rounds half to even). -/
def roundHour (t : ℤ) : ℤ :=
  if t % 60 < 30 then 60 * (t / 60)
  else if 30 < t % 60 then 60 * (t / 60 + 1)
  else if (t / 60) % 2 = 0 then 60 * (t / 60) else 60 * (t / 60 + 1)

/-- `.round('h')` on an aware timestamp rounds its local wall clock. -/
def roundH (t : AwareTs) : AwareTs :=
  ⟨roundHour (t.instant + t.offset) - t.offset, t.offset⟩

/-- `tz_localize(None)`: drop the timezone, keeping the local wall clock. -/
def tzLocalizeNone (t : AwareTs) : ℤ := t.instant + t.offset

/-- The normalization of `load_predictions` (src/backtesting.py lines
21–27) on a naive wall clock `w`, with `jer` the Asia/Jerusalem offset:
`pd.to_datetime(..., utc=True).tz_convert('Asia/Jerusalem')
.tz_convert('UTC').round('h').tz_localize(None)`. -/
def normalizeBt (jer : ℤ → ℤ) (w : ℤ) : ℤ :=
  tzLocalizeNone (roundH (tzConvert (fun _ => 0) (tzConvert jer (parseNaiveUtc w))))

/-- The module-level normalization of src/plot_results.py (lines 14–22) on
a naive input: `tz_localize('Asia/Jerusalem')`, `tz_convert('UTC')`,
`round('h')`, `tz_localize(None)`. -/
def normalizePr (jer : ℤ → ℤ) (w : ℤ) : ℤ :=
  tzLocalizeNone (roundH (tzConvert (fun _ => 0) (tzLocalize jer w)))

/-- Israel Standard Time's fixed winter offset (UTC+2): a faithful stand-in
for Asia/Jerusalem over a winter span — only the offset's values at the
instants of the counterexample matter. -/
def istOffset : ℤ → ℤ := fun _ => 120

lemma roundHour_mul (m : ℤ) : roundHour (60 * m) = 60 * m := by
  unfold roundHour
  have h1 : (60 * m) % 60 = 0 := by omega
  have h2 : (60 * m) / 60 = m := by omega
  rw [h1, h2]
  norm_num

lemma roundHour_shape (t : ℤ) : ∃ m, roundHour t = 60 * m := by
  unfold roundHour
  split_ifs with h1 h2 h3
  exacts [⟨t / 60, rfl⟩, ⟨t / 60 + 1, rfl⟩, ⟨t / 60, rfl⟩, ⟨t / 60 + 1, rfl⟩]

lemma roundHour_idem (t : ℤ) : roundHour (roundHour t) = roundHour t := by
  obtain ⟨m, hm⟩ := roundHour_shape t
  rw [hm, roundHour_mul]

/-- C8 counterexample: timestamp normalization is *not* idempotent for the
module-level variant of src/plot_results.py, which localizes a naive
timestamp as Jerusalem local time: re-normalizing the already-normalized
wall clock 600 (10:00 UTC, itself `normalizePr` of 720) shifts it by the
Jerusalem offset to 480. -/
theorem normalizePr_not_idempotent_counterexample :
    normalizePr istOffset (normalizePr istOffset 720) ≠ normalizePr istOffset 720 := by
  decide

/-- C8 amended: the normalization used by the pipeline proper
(`load_predictions`, which parses with `utc=True`, so the timezone
round-trip preserves the instant and only the hour rounding acts) is
idempotent for every offset function; the plot_results module-level
variant, which re-localizes naive values as Jerusalem time, is not (see
the counterexample). -/
theorem normalizeBt_idempotent (jer : ℤ → ℤ) (w : ℤ) :
    normalizeBt jer (normalizeBt jer w) = normalizeBt jer w := by
  have hbt : ∀ v, normalizeBt jer v = roundHour v := by
    intro v
    simp [normalizeBt, tzLocalizeNone, roundH, tzConvert, parseNaiveUtc]
  simp only [hbt]
  exact roundHour_idem w

end SP500
